import Mathlib

/-!
Shallow embedding of the `uart_bridge.ino` protocol engine: the byte-stream
framer (`wait_for_cmd`), the command dispatcher (`loop`), the register store
(`reg_read` / `reg_write`), the GPIO relay, the I2C relay and the identity
responder, together with theorems checking the natural-language specification.
Bytes are modelled as `Nat`; the serial transport is a list of incoming bytes
and responses are lists of bytes written back.
-/

namespace UartBridge

/-- Capacity of the global `rx_buf` array (`#define BUFFER_SIZE 64`). -/
def BUFFER_SIZE : Nat := 64

/-- Result of one `wait_for_cmd()` call: a delivered frame (return value
`cnt ≥ 0`, `buf` the bytes stored at indices `0..cnt-1`), overflow (return
value `-1`, `written` the bytes stored before returning), or never returning
because the stream ends without a line feed (the real loop spins forever). -/
inductive FrameResult where
  | frame (buf : List Nat) : FrameResult
  | overflow (written : List Nat) : FrameResult
  | blocked : FrameResult
deriving DecidableEq, Repr

/-- Body of the framer `wait_for_cmd`, with the bytes appended so far as `acc`
(the counter `cnt` is `acc.length`): `\r` (13) is skipped, `\n` (10) returns a
frame after storing the terminator, and any other byte is stored at index
`cnt` with the count checked against `BUFFER_SIZE` only after the store
(`rx_buf[cnt++] = c; if (cnt > BUFFER_SIZE) return -1;`). -/
def wait_for_cmd_aux : List Nat → List Nat → FrameResult
  | [], _ => .blocked
  | c :: rest, acc =>
    if c = 13 then wait_for_cmd_aux rest acc
    else if c = 10 then .frame acc
    else if acc.length + 1 > BUFFER_SIZE then .overflow (acc ++ [c])
    else wait_for_cmd_aux rest (acc ++ [c])

/-- The framer `wait_for_cmd()` run on an incoming byte stream, starting from
`cnt = 0` after `memset(rx_buf, 0, BUFFER_SIZE)`. -/
def wait_for_cmd (input : List Nat) : FrameResult :=
  wait_for_cmd_aux input []

/-- Indices of `rx_buf` written during one `wait_for_cmd` call: the `k`-th
stored data byte goes to index `k`, and a delivered frame additionally writes
the `\0` terminator at index `buf.length`. Valid indices of the array are
`0 .. BUFFER_SIZE - 1`. -/
def writeIndices : FrameResult → List Nat
  | .frame buf => List.range (buf.length + 1)
  | .overflow w => List.range w.length
  | .blocked => []

/-- The handler selected by the dispatcher for one frame. -/
inductive Handler where
  | i2cRead
  | i2cWrite
  | regRead
  | regWrite
  | gpioRead
  | gpioWrite
  | powerDown
  | readId
  | unsupported
deriving DecidableEq, Repr

/-- Routing of `loop()`: `switch (rx_buf[0])`, with the start command `S` split
on the I2C read bit (LSB) of `rx_buf[1]`. -/
def dispatch_route (b0 b1 : Nat) : Handler :=
  if b0 = 0x53 then (if b1 &&& 0x01 = 0x01 then .i2cRead else .i2cWrite)
  else if b0 = 0x52 then .regRead
  else if b0 = 0x57 then .regWrite
  else if b0 = 0x49 then .gpioRead
  else if b0 = 0x4F then .gpioWrite
  else if b0 = 0x5A then .powerDown
  else if b0 = 0x56 then .readId
  else .unsupported

/-- One iteration of `loop()`: `_cnt = wait_for_cmd();` followed by the switch
on `rx_buf[0]`. The return value of `wait_for_cmd` is never checked, so the
switch also runs when it returned `-1` (overflow), on the bytes left in
`rx_buf`; only a stream that never completes keeps the dispatcher from
running. -/
def loop_step (input : List Nat) : Option Handler :=
  match wait_for_cmd input with
  | .blocked => none
  | .frame buf => some (dispatch_route (buf.getD 0 0) (buf.getD 1 0))
  | .overflow w => some (dispatch_route (w.getD 0 0) (w.getD 1 0))

/-- C1: refuted on the code. For the 65-byte stream `S` followed by 64 copies
of 0x40 and no line feed, `wait_for_cmd` does report overflow (`-1`), yet
`loop()` still dispatches: the I2C write handler runs on the contents of the
overflowed buffer, because the `-1` return value is never checked. -/
theorem loop_dispatches_after_overflow :
    wait_for_cmd (0x53 :: List.replicate 64 0x40) =
      FrameResult.overflow (0x53 :: List.replicate 64 0x40) ∧
    loop_step (0x53 :: List.replicate 64 0x40) = some Handler.i2cWrite := by
  decide

/-- C2: refuted on the code. For 65 non-line-feed bytes the call stores the
65th byte at index 64 = `BUFFER_SIZE` (one past the end of the 64-byte array)
before returning `-1`, and a frame of exactly 64 data bytes stores its `\0`
terminator at index 64 as well: an out-of-bounds index is written before the
overflow failure is reported. -/
theorem wait_for_cmd_oob_write :
    BUFFER_SIZE ∈ writeIndices (wait_for_cmd (List.replicate 65 0x41)) ∧
    wait_for_cmd (List.replicate 65 0x41) =
      FrameResult.overflow (List.replicate 65 0x41) ∧
    BUFFER_SIZE ∈ writeIndices (wait_for_cmd (List.replicate 64 0x41 ++ [10])) := by
  decide

/-- Fixed ordered list of the physical pins of the 8-bit virtual port
(`const uint8_t gpio_pins[] = {2, 4, 5, 12, 13, 14, 18, 19};`). -/
def gpio_pins : List Nat := [2, 4, 5, 12, 13, 14, 18, 19]

/-- Bytes of the C object `device_id = "U-Bridge v1.0.0\0"` as laid out in
memory: the 15 characters of `U-Bridge v1.0.0`, the explicit `\0` of the
literal, and the implicit terminating `\0`. -/
def device_id : List Nat :=
  [85, 45, 66, 114, 105, 100, 103, 101, 32, 118, 49, 46, 48, 46, 48, 0, 0]

/-- Mutable state of the bridge touched by the handlers: the cached port
state `ioStates`, the physical pin levels (indexed by pin number), the last
`Wire.endTransmission` result `i2c_state`, the configured UART baud rate and
the configured I2C clock. -/
structure BridgeState where
  ioStates : Nat
  pinLevel : Nat → Bool
  i2c_state : Nat
  baud : Nat
  i2cClock : Nat

/-- A concrete initial state: cache 0, all pins low, last I2C status 0, the
115200 baud and 400 kHz clock set up by `setup()`. -/
def init_state : BridgeState :=
  { ioStates := 0, pinLevel := fun _ => false, i2c_state := 0,
    baud := 115200, i2cClock := 400000 }

/-- Semantics of the Arduino `Print::write(const char *str)` used by
`bridge.write(device_id)`: it writes `strlen(str)` bytes, i.e. the bytes of
the string up to but not including the first NUL. -/
def serial_write_cstr (s : List Nat) : List Nat := s.takeWhile (fun c => c != 0)

/-- The `read_id()` handler: it touches no state and writes `device_id` to the
transport through `bridge.write(const char*)`. -/
def read_id (s : BridgeState) : BridgeState × List Nat :=
  (s, serial_write_cstr device_id)

/-- Status byte computed by `reg_read` for `REG_I2C_STATE`: the switch maps
`Wire.endTransmission` results 0/2/3/5 to 0xF0/0xF1/0xF2/0xF8 and defaults to
the raw value; a resulting status of 1 or 4 is only logged, not written. -/
def i2c_status_byte (st : Nat) : Option Nat :=
  let status :=
    if st = 0 then 0xF0
    else if st = 2 then 0xF1
    else if st = 3 then 0xF2
    else if st = 5 then 0xF8
    else st
  if status = 1 ∨ status = 4 then none else some status

/-- Bytes written to the transport by `reg_read(reg)`: `REG_IO_STATE` (4)
writes the cached `ioStates`, `REG_I2C_STATE` (10) writes the mapped status
byte when it is written at all, every other register writes nothing. -/
def reg_read (s : BridgeState) (reg : Nat) : List Nat :=
  (if reg = 4 then [s.ioStates] else []) ++
  (if reg = 10 then
    (match i2c_status_byte s.i2c_state with
     | some b => [b]
     | none => [])
   else [])

/-- Update of one physical pin level (`digitalWrite`). -/
def store_pin (pl : Nat → Bool) (p : Nat) (v : Bool) : Nat → Bool :=
  fun q => if q = p then v else pl q

/-- Pin levels after `gpio_write(state)`: for each `i` in `0..7`, pin
`gpio_pins[i]` is driven to `(state >> i) & 0x01`. -/
def write_pins (pl : Nat → Bool) (state : Nat) : Nat → Bool :=
  (List.range 8).foldl
    (fun acc i => store_pin acc (gpio_pins.getD i 0) (((state >>> i) &&& 0x01) = 1))
    pl

/-- The `gpio_write(state)` handler: drives the eight pins and writes no
response byte; it does not touch `ioStates`. -/
def gpio_write (s : BridgeState) (state : Nat) : BridgeState :=
  { s with pinLevel := write_pins s.pinLevel state }

/-- The mask sampled by `gpio_read`: `ioStates = 0` then
`ioStates |= digitalRead(gpio_pins[i]) << i` for `i` in `0..7`. -/
def sample_pins (pl : Nat → Bool) : Nat :=
  (List.range 8).foldl
    (fun acc i => acc ||| ((if pl (gpio_pins.getD i 0) then 1 else 0) <<< i))
    0

/-- The `gpio_read()` handler: samples all pins into `ioStates` (caching it)
and writes the sampled mask as one byte. -/
def gpio_read (s : BridgeState) : BridgeState × List Nat :=
  ({ s with ioStates := sample_pins s.pinLevel }, [sample_pins s.pinLevel])

/-- C3: refuted on the code. `read_id` indeed changes no state, but because
`bridge.write(const char*)` stops at the first NUL it writes only the 15
bytes of `U-Bridge v1.0.0`: the transmission is 15 bytes long, its last byte
is the character `0` (0x30), and no NUL byte (0x00) is ever written — not the
16 NUL-terminated bytes that the claim (and the function's own comment)
promise. -/
theorem read_id_drops_nul :
    (read_id init_state).1 = init_state ∧
    (read_id init_state).2.length = 15 ∧
    (read_id init_state).2.getLast? = some 0x30 ∧
    (read_id init_state).2.contains 0 = false := by
  refine ⟨rfl, ?_, ?_, ?_⟩ <;> decide

/-- C4 counterexample: starting from the initial state (cache 0), running
`gpio_write` with mask 5 leaves the cached state at 0, so the io-state
register read returns 0x00 and not the mask 5 the claim predicts. -/
theorem gpio_write_cache_cex :
    (gpio_write init_state 5).ioStates = 0 ∧
    reg_read (gpio_write init_state 5) 4 = [0] ∧
    (reg_read (gpio_write init_state 5) 4 == [5]) = false := by
  refine ⟨rfl, ?_, ?_⟩ <;> decide

/-- C4 (amended): the cached 8-bit GPIO port state is written only by
`gpio_read`, which stores and reports the freshly sampled pin mask;
`gpio_write` drives the physical pins but leaves the cached state unchanged,
and a register read of io-state returns the cached value. -/
theorem gpio_cache_only_read_updates (s : BridgeState) (mask : Nat) :
    (gpio_write s mask).ioStates = s.ioStates ∧
    (gpio_read s).1.ioStates = sample_pins s.pinLevel ∧
    (gpio_read s).2 = [sample_pins s.pinLevel] ∧
    reg_read s 4 = [s.ioStates] := by
  refine ⟨rfl, rfl, rfl, ?_⟩
  simp [reg_read]

/-- C4 amended-claim witness: the cache behaviour evaluated at the initial
state and mask 5. -/
theorem gpio_cache_only_read_updates_witness :
    (gpio_write init_state 5).ioStates = init_state.ioStates ∧
    (gpio_read init_state).1.ioStates = sample_pins init_state.pinLevel ∧
    (gpio_read init_state).2 = [sample_pins init_state.pinLevel] ∧
    reg_read init_state 4 = [init_state.ioStates] :=
  gpio_cache_only_read_updates init_state 5

/-- The I2C bus transaction issued by `i2c_write`: target 7-bit address
(`data[1] >> 1`), the `len = data[2]` payload bytes starting at `data[3]`,
and whether `Wire.endTransmission` is called with a stop condition. -/
structure I2CWriteTxn where
  addr : Nat
  payload : List Nat
  stop : Bool
deriving DecidableEq, Repr

/-- The `i2c_write(data)` handler on a frame of length `cnt` (`_cnt`):
`send_stop = ((_cnt == (4 + len)) && (data[_cnt - 1] == 'P'))` with
`len = data[2]`, then a write of `len` bytes from `data[3]` to the address
`data[1] >> 1`, ended with `send_stop`. -/
def i2c_write (cnt : Nat) (data : List Nat) : I2CWriteTxn :=
  let len := data.getD 2 0
  let send_stop := (cnt == 4 + len) && (data.getD (cnt - 1) 0 == 0x50)
  { addr := (data.getD 1 0) >>> 1, payload := (data.drop 3).take len, stop := send_stop }

/-- C5: for every bridge state, a register read of i2c-status writes exactly
one byte 0xF0 / 0xF1 / 0xF2 / 0xF8 when the last `Wire.endTransmission`
result was 0 (ok) / 2 (NACK on address) / 3 (NACK on data) / 5 (timeout), and
writes no byte at all for the unmapped results 1 (transmit-buffer overflow)
and 4 (other error). -/
theorem reg_read_i2c_status_map (s : BridgeState) :
    (s.i2c_state = 0 → reg_read s 10 = [0xF0]) ∧
    (s.i2c_state = 2 → reg_read s 10 = [0xF1]) ∧
    (s.i2c_state = 3 → reg_read s 10 = [0xF2]) ∧
    (s.i2c_state = 5 → reg_read s 10 = [0xF8]) ∧
    (s.i2c_state = 1 → reg_read s 10 = []) ∧
    (s.i2c_state = 4 → reg_read s 10 = []) := by
  refine ⟨?_, ?_, ?_, ?_, ?_, ?_⟩ <;>
    intro h <;> simp [reg_read, i2c_status_byte, h]

/-- C5 witness: the six mapped outcomes evaluated at concrete states. -/
theorem reg_read_i2c_status_map_witness :
    reg_read { init_state with i2c_state := 0 } 10 = [0xF0] ∧
    reg_read { init_state with i2c_state := 2 } 10 = [0xF1] ∧
    reg_read { init_state with i2c_state := 3 } 10 = [0xF2] ∧
    reg_read { init_state with i2c_state := 5 } 10 = [0xF8] ∧
    reg_read { init_state with i2c_state := 1 } 10 = [] ∧
    reg_read { init_state with i2c_state := 4 } 10 = [] :=
  ⟨(reg_read_i2c_status_map _).1 rfl,
   (reg_read_i2c_status_map _).2.1 rfl,
   (reg_read_i2c_status_map _).2.2.1 rfl,
   (reg_read_i2c_status_map _).2.2.2.1 rfl,
   (reg_read_i2c_status_map _).2.2.2.2.1 rfl,
   (reg_read_i2c_status_map _).2.2.2.2.2 rfl⟩

/-- C6: the stop condition of an I2C write is asserted exactly when the
frame's total length equals `4 + length` (with `length` the payload length
byte `data[2]`) and the frame's final byte is the stop marker `P` (0x50); in
every other case `Wire.endTransmission(false)` ends the transaction without a
stop. The two spec examples are included: `S, addr, 2, d0, d1` asserts no
stop, and the same frame with a trailing `P` does. -/
theorem i2c_write_stop_iff :
    (∀ (cnt : Nat) (data : List Nat),
      (i2c_write cnt data).stop = true ↔
        (cnt = 4 + data.getD 2 0 ∧ data.getD (cnt - 1) 0 = 0x50)) ∧
    (i2c_write 5 [0x53, 0x22, 2, 7, 9]).stop = false ∧
    (i2c_write 6 [0x53, 0x22, 2, 7, 9, 0x50]).stop = true := by
  refine ⟨?_, by decide, by decide⟩
  intro cnt data
  simp [i2c_write]

/-- The ten real baud rates of the table in `reg_write`. -/
def baud_rate_tbl : List Nat :=
  [9600, 14400, 19200, 28800, 38400, 57600, 76800, 115200, 230400, 460800]

/-- The ten protocol baud codes of the table in `reg_write`, in matching
order. -/
def br_config : List Nat :=
  [0x02f0, 0x01f0, 0x0170, 0x00f0, 0x00b0, 0x0070, 0x0050, 0x0030, 0x0010, 0x0000]

/-- The baud-rate loop of `reg_write`: for each index of the table, on a code
match the transport is flushed and reconfigured at the matching real rate.
The result is the configured rate after the loop together with a flag that a
flush-then-reconfigure happened. -/
def apply_baud (val : Nat) (r : Nat) : Nat × Bool :=
  (List.range 10).foldl
    (fun acc i => if val = br_config.getD i 0 then (baud_rate_tbl.getD i 0, true) else acc)
    (r, false)

/-- The `reg_write(buffer)` handler: the address pair `reg` and value pair
`val` are assembled from `buffer[1..4]`, then the switch handles the
port-config pair 0x0302 (log only), the baud pair 0x0100 (table loop), the
I2C clock pair 0x0807 (0x0005 → 400 kHz, 0x0013 → 100 kHz) and ignores every
other pair. The boolean reports whether the transport was flushed and
reconfigured. -/
def reg_write (s : BridgeState) (buf : List Nat) : BridgeState × Bool :=
  let reg := ((buf.getD 3 0) <<< 8) ||| buf.getD 1 0
  let val := ((buf.getD 4 0) <<< 8) ||| buf.getD 2 0
  if reg = 0x0302 then (s, false)
  else if reg = 0x0100 then
    ({ s with baud := (apply_baud val s.baud).1 }, (apply_baud val s.baud).2)
  else if reg = 0x0807 then
    (if val = 0x0005 then { s with i2cClock := 400000 }
     else if val = 0x0013 then { s with i2cClock := 100000 }
     else s, false)
  else (s, false)

/-- Helper: a code absent from the baud table leaves the loop's accumulator
untouched. -/
theorem apply_baud_not_mem (v r : Nat) (h : v ∉ br_config) : apply_baud v r = (r, false) := by
  simp only [br_config, List.mem_cons, List.not_mem_nil, or_false, not_or] at h
  obtain ⟨h0, h1, h2, h3, h4, h5, h6, h7, h8, h9⟩ := h
  show List.foldl _ _ (List.range 10) = _
  rw [show List.range 10 = [0, 1, 2, 3, 4, 5, 6, 7, 8, 9] from rfl]
  simp [br_config, h0, h1, h2, h3, h4, h5, h6, h7, h8, h9]

/-- C7: for every register write addressed to the baud pair (addresses 0 and
1), if the 16-bit code assembled from the two value bytes equals 0x0030 the
transport is flushed and reconfigured to 115200, and if the code is not in
the ten-entry baud table the configured rate is left unchanged and no
flush/reconfigure happens. -/
theorem reg_write_baud (s : BridgeState) (lo hi : Nat) :
    (((hi <<< 8) ||| lo) = 0x0030 →
      reg_write s [0x57, 0, lo, 1, hi] = ({ s with baud := 115200 }, true)) ∧
    (((hi <<< 8) ||| lo) ∉ br_config →
      reg_write s [0x57, 0, lo, 1, hi] = (s, false)) := by
  have hstep : reg_write s [0x57, 0, lo, 1, hi] =
      ({ s with baud := (apply_baud ((hi <<< 8) ||| lo) s.baud).1 },
        (apply_baud ((hi <<< 8) ||| lo) s.baud).2) := by
    simp [reg_write]
  constructor
  · intro h
    rw [hstep, h]
    rfl
  · intro h
    rw [hstep, apply_baud_not_mem _ _ h]
/-- C7 witness: code 0x0030 (bytes lo=0x30, hi=0x00) reconfigures to 115200
with a flush, and code 0x9999 (not in the table) leaves the state alone. -/
theorem reg_write_baud_witness :
    reg_write init_state [0x57, 0, 0x30, 1, 0] = ({ init_state with baud := 115200 }, true) ∧
    reg_write init_state [0x57, 0, 0x99, 1, 0x99] = (init_state, false) :=
  ⟨(reg_write_baud init_state 0x30 0).1 (by decide),
   (reg_write_baud init_state 0x99 0x99).2 (by decide)⟩

/-- Size of the local drain buffer `uint8_t rbuf[10]` in `i2c_read`. -/
def RBUF_SIZE : Nat := 10

/-- The drain loop of `i2c_read` (`int i = 0; while (Wire.available())
rbuf[i++] = Wire.read();`) on the bytes the bus delivers, starting at index
`i`: it records, in order, the `(index, byte)` stores into `rbuf`, with no
bounds check against `RBUF_SIZE`. -/
def i2c_drain_writes : List Nat → Nat → List (Nat × Nat)
  | [], _ => []
  | b :: rest, i => (i, b) :: i2c_drain_writes rest (i + 1)

/-- Bytes `i2c_read` writes back to the transport for a drained byte list
that fits the buffer: each drained byte in order, then one terminating NUL. -/
def i2c_read_out (incoming : List Nat) : List Nat := incoming ++ [0]

/-- Helper: every store of the drain loop started at index `i` lands below
`i` plus the number of delivered bytes. -/
theorem i2c_drain_writes_lt (incoming : List Nat) :
    ∀ i : Nat, ∀ p ∈ i2c_drain_writes incoming i, p.1 < i + incoming.length := by
  induction incoming with
  | nil => intro i p hp; cases hp
  | cons b rest ih =>
    intro i p hp
    rcases List.mem_cons.mp hp with hp | hp
    · subst hp
      simp only [List.length_cons]
      show i < i + (rest.length + 1)
      omega
    · have := ih (i + 1) p hp
      simp only [List.length_cons]
      omega

/-- C9: the `i2c_read` drain loop stays inside the 10-byte `rbuf` exactly
under the precondition that the bus delivers at most 10 bytes: when at most
10 bytes arrive every store index is below `RBUF_SIZE`, and when a device
answers with 11 bytes the loop stores the 11th byte at index 10, one past the
end of the buffer. -/
theorem i2c_read_drain_bounds :
    (∀ incoming : List Nat, incoming.length ≤ RBUF_SIZE →
      ∀ p ∈ i2c_drain_writes incoming 0, p.1 < RBUF_SIZE) ∧
    (RBUF_SIZE, 0xAB) ∈ i2c_drain_writes (List.replicate 11 0xAB) 0 := by
  constructor
  · intro incoming hlen p hp
    have := i2c_drain_writes_lt incoming 0 p hp
    omega
  · decide

/-- C9 witness: a two-byte delivery stays in bounds, checked at the first
store. -/
theorem i2c_read_drain_bounds_witness :
    ((0, 7) : Nat × Nat).1 < RBUF_SIZE :=
  i2c_read_drain_bounds.1 [7, 8] (by decide) (0, 7) (by decide)

/-- Modelled from the spec wording, for comparison with the framer: the input
stream with every carriage return (13) removed. -/
def spec_strip_cr (l : List Nat) : List Nat := l.filter (fun c => c != 13)

/-- Modelled from the spec wording, for comparison with the framer: the frame
the spec expects — the carriage-return-stripped bytes before the first line
feed (10). -/
def spec_first_line (l : List Nat) : List Nat :=
  (spec_strip_cr l).takeWhile (fun c => c != 10)

/-- Helper: characterization of `wait_for_cmd_aux` starting from any partial
buffer `acc` of length at most the capacity — a frame is returned exactly
when the stream still holds a line feed and the final count fits, and the
returned frame is `acc` extended by the stripped first line. -/
theorem wait_for_cmd_aux_char (input : List Nat) :
    ∀ acc : List Nat, acc.length ≤ BUFFER_SIZE →
      ((∀ buf, wait_for_cmd_aux input acc = .frame buf →
          buf = acc ++ spec_first_line input) ∧
       ((∃ buf, wait_for_cmd_aux input acc = .frame buf) ↔
          10 ∈ input ∧ acc.length + (spec_first_line input).length ≤ BUFFER_SIZE)) := by
  induction input with
  | nil =>
    intro acc hacc
    constructor
    · intro buf hbuf
      simp [wait_for_cmd_aux] at hbuf
    · simp [wait_for_cmd_aux]
  | cons c rest ih =>
    intro acc hacc
    by_cases hc13 : c = 13
    · subst hc13
      have haux : wait_for_cmd_aux (13 :: rest) acc = wait_for_cmd_aux rest acc := by
        simp [wait_for_cmd_aux]
      have hs : spec_first_line (13 :: rest) = spec_first_line rest := by
        simp [spec_first_line, spec_strip_cr]
      have h10 : (10 : Nat) ∈ 13 :: rest ↔ (10 : Nat) ∈ rest := by simp
      rw [haux, hs, h10]
      exact ih acc hacc
    · by_cases hc10 : c = 10
      · subst hc10
        have haux : wait_for_cmd_aux (10 :: rest) acc = .frame acc := by
          simp [wait_for_cmd_aux]
        have hs : spec_first_line (10 :: rest) = [] := by
          simp [spec_first_line, spec_strip_cr]
        rw [haux, hs]
        constructor
        · intro buf hbuf
          cases hbuf
          simp
        · constructor
          · intro _
            exact ⟨List.mem_cons_self 10 rest, by simpa using hacc⟩
          · intro _
            exact ⟨acc, rfl⟩
      · have haux : wait_for_cmd_aux (c :: rest) acc =
            if acc.length + 1 > BUFFER_SIZE then FrameResult.overflow (acc ++ [c])
            else wait_for_cmd_aux rest (acc ++ [c]) := by
          simp [wait_for_cmd_aux, hc13, hc10]
        have hs : spec_first_line (c :: rest) = c :: spec_first_line rest := by
          simp [spec_first_line, spec_strip_cr, hc13, hc10]
        by_cases hov : acc.length + 1 > BUFFER_SIZE
        · rw [haux, if_pos hov, hs]
          constructor
          · intro buf hbuf
            exact absurd hbuf (by simp)
          · constructor
            · rintro ⟨buf, hbuf⟩
              exact absurd hbuf (by simp)
            · rintro ⟨-, hlen⟩
              exfalso
              simp only [List.length_cons] at hlen
              omega
        · rw [haux, if_neg hov, hs]
          have hlen' : (acc ++ [c]).length ≤ BUFFER_SIZE := by
            simp only [List.length_append, List.length_cons, List.length_nil]
            omega
          obtain ⟨ih1, ih2⟩ := ih (acc ++ [c]) hlen'
          constructor
          · intro buf hbuf
            rw [ih1 buf hbuf]
            simp
          · rw [ih2]
            constructor
            · rintro ⟨h10, hl⟩
              refine ⟨List.mem_cons_of_mem _ h10, ?_⟩
              simp only [List.length_append, List.length_cons, List.length_nil] at hl ⊢
              omega
            · rintro ⟨h10, hl⟩
              refine ⟨?_, ?_⟩
              · rcases List.mem_cons.mp h10 with h | h
                · exact absurd h.symm hc10
                · exact h
              · simp only [List.length_append, List.length_cons, List.length_nil] at hl ⊢
                omega

/-- C8: for every input stream, a delivered frame never contains a carriage
return and equals the carriage-return-stripped bytes before the first line
feed (so carriage returns are never counted toward the length), and a frame
is delivered exactly when the stream holds a line feed and the stripped
first line fits the buffer. -/
theorem wait_for_cmd_cr_lf (input : List Nat) :
    (∀ buf, wait_for_cmd input = .frame buf →
      13 ∉ buf ∧ buf = spec_first_line input) ∧
    ((∃ buf, wait_for_cmd input = .frame buf) ↔
      10 ∈ input ∧ (spec_first_line input).length ≤ BUFFER_SIZE) := by
  obtain ⟨h1, h2⟩ := wait_for_cmd_aux_char input [] (by decide)
  constructor
  · intro buf hbuf
    have hb : buf = spec_first_line input := by
      simpa using h1 buf hbuf
    refine ⟨?_, hb⟩
    intro hmem
    rw [hb] at hmem
    have h13 : (13 : Nat) ∈ spec_strip_cr input :=
      List.takeWhile_subset _ hmem
    have := (List.mem_filter.mp h13).2
    simp at this
  · simpa using h2

/-- C8 witness: the stream `65, 13, 66, 10` delivers the frame `65, 66`,
which is carriage-return free and equals the stripped first line. -/
theorem wait_for_cmd_cr_lf_witness :
    13 ∉ ([65, 66] : List Nat) ∧
    ([65, 66] : List Nat) = spec_first_line [65, 13, 66, 10] :=
  (wait_for_cmd_cr_lf [65, 13, 66, 10]).1 [65, 66] rfl

/-- One array-cell update of the modelled `rx_buf`. -/
def store (b : Nat → Nat) (i v : Nat) : Nat → Nat :=
  fun j => if j = i then v else b j

/-- The `memset(rx_buf, 0, BUFFER_SIZE)` at the top of `wait_for_cmd`: the
first `BUFFER_SIZE` cells become zero and everything beyond is left as it
was. -/
def memset_zero (b : Nat → Nat) : Nat → Nat :=
  fun j => if j < BUFFER_SIZE then 0 else b j

/-- The read loop of `wait_for_cmd` acting on the array contents: the same
control flow as `wait_for_cmd_aux`, with the byte stores made explicit. It
returns the final array and the returned count on frame delivery, and `none`
on overflow (return `-1`, buffer discarded) or on a stream that never
completes. -/
def wfc_buf : List Nat → (Nat → Nat) → Nat → Option ((Nat → Nat) × Nat)
  | [], _, _ => none
  | c :: rest, b, cnt =>
    if c = 13 then wfc_buf rest b cnt
    else if c = 10 then some (store b cnt 0, cnt)
    else if cnt + 1 > BUFFER_SIZE then none
    else wfc_buf rest (store b cnt c) (cnt + 1)

/-- One `wait_for_cmd` call over the physical buffer left over from earlier
frames (`stale`): the `memset` to zero followed by the read loop from
`cnt = 0`. -/
def wait_for_cmd_buf (stale : Nat → Nat) (input : List Nat) :
    Option ((Nat → Nat) × Nat) :=
  wfc_buf input (memset_zero stale) 0

/-- Helper: if the array agrees below the capacity with the abstract partial
frame `acc` (indices past `acc` reading zero), then a delivered frame makes
the array agree below the capacity with the delivered frame, again with
zeroes past its length. -/
theorem wfc_buf_frame_aux (input : List Nat) :
    ∀ (acc : List Nat) (bb : Nat → Nat),
      (∀ i, i < BUFFER_SIZE → bb i = acc.getD i 0) →
      ∀ b len, wfc_buf input bb acc.length = some (b, len) →
        ∃ frame, wait_for_cmd_aux input acc = .frame frame ∧ len = frame.length ∧
          ∀ i, i < BUFFER_SIZE → b i = frame.getD i 0 := by
  induction input with
  | nil =>
    intro acc bb _ b len h
    simp [wfc_buf] at h
  | cons c rest ih =>
    intro acc bb hbb b len h
    by_cases hc13 : c = 13
    · subst hc13
      rw [show wfc_buf (13 :: rest) bb acc.length = wfc_buf rest bb acc.length from by
        simp [wfc_buf]] at h
      obtain ⟨frame, hf, hlen, hb⟩ := ih acc bb hbb b len h
      exact ⟨frame, by simpa [wait_for_cmd_aux] using hf, hlen, hb⟩
    · by_cases hc10 : c = 10
      · subst hc10
        rw [show wfc_buf (10 :: rest) bb acc.length =
            some (store bb acc.length 0, acc.length) from by simp [wfc_buf]] at h
        have h' := Option.some.inj h
        have hb : b = store bb acc.length 0 := (congrArg Prod.fst h').symm
        have hlen : len = acc.length := (congrArg Prod.snd h').symm
        subst hb
        subst hlen
        refine ⟨acc, by simp [wait_for_cmd_aux], rfl, ?_⟩
        intro i hi
        by_cases hieq : i = acc.length
        · subst hieq
          simp [store, List.getD_eq_default]
        · simp [store, hieq, hbb i hi]
      · rw [show wfc_buf (c :: rest) bb acc.length =
            (if acc.length + 1 > BUFFER_SIZE then none
             else wfc_buf rest (store bb acc.length c) (acc.length + 1)) from by
          simp [wfc_buf, hc13, hc10]] at h
        by_cases hov : acc.length + 1 > BUFFER_SIZE
        · rw [if_pos hov] at h
          cases h
        · rw [if_neg hov] at h
          have hbb' : ∀ i, i < BUFFER_SIZE →
              store bb acc.length c i = (acc ++ [c]).getD i 0 := by
            intro i hi
            by_cases hieq : i = acc.length
            · subst hieq
              rw [List.getD_append_right _ _ _ _ (Nat.le_refl _)]
              simp [store]
            · rcases Nat.lt_or_ge i acc.length with hlt | hge
              · rw [List.getD_append _ _ _ _ hlt]
                simp [store, hieq, hbb i hi]
              · have hsb : store bb acc.length c i = bb i := by simp [store, hieq]
                rw [hsb, hbb i hi, List.getD_eq_default _ _ hge,
                  List.getD_append_right _ _ _ _ hge,
                  List.getD_eq_default _ _ (by simp; omega)]
          have hlen' : (acc ++ [c]).length = acc.length + 1 := by simp
          rw [← hlen'] at h
          obtain ⟨frame, hf, hlenf, hb⟩ := ih (acc ++ [c]) _ hbb' b len h
          refine ⟨frame, ?_, hlenf, hb⟩
          rw [← hf]
          simp [wait_for_cmd_aux, hc13, hc10]
          omega

/-- C10: every call of `wait_for_cmd` that delivers a frame leaves the
in-bounds contents of `rx_buf` equal to a pure function of the delivered
frame's bytes — each index below the capacity reads the frame byte there, and
thus reads 0x00 at or beyond the frame's length — independently of whatever
the buffer held from previously received frames; two runs receiving the same
byte stream after different frame histories therefore present identical
buffers to the dispatched handler. -/
theorem rx_buf_independent_of_history (stale : Nat → Nat) (input : List Nat)
    (b : Nat → Nat) (len : Nat)
    (h : wait_for_cmd_buf stale input = some (b, len)) :
    ∃ frame, wait_for_cmd input = .frame frame ∧ len = frame.length ∧
      ∀ i, i < BUFFER_SIZE → b i = frame.getD i 0 := by
  have h0 : ∀ i, i < BUFFER_SIZE → memset_zero stale i = ([] : List Nat).getD i 0 := by
    intro i hi
    simp [memset_zero, hi]
  exact wfc_buf_frame_aux input [] (memset_zero stale) h0 b len h

/-- C10 witness: after an arbitrary stale buffer (all cells 7), the stream
`86, 10` delivers and the buffer is determined by the frame alone. -/
theorem rx_buf_independent_of_history_witness :
    ∃ frame, wait_for_cmd [86, 10] = FrameResult.frame frame ∧ 1 = frame.length ∧
      ∀ i, i < BUFFER_SIZE →
        store (store (memset_zero (fun _ => 7)) 0 86) 1 0 i = frame.getD i 0 :=
  rx_buf_independent_of_history (fun _ => 7) [86, 10]
    (store (store (memset_zero (fun _ => 7)) 0 86) 1 0) 1 rfl

end UartBridge
